import Mathlib

/-!
A verification development for a substrate oracle client
(`src/src/main.rs`).  The core under study is the event decoding and
matching pipeline: `wait_for_raw_custom_event` pulls hex blobs from a
channel, hex-decodes them, decodes them into event records against the
chain metadata, and returns the first event whose module/variant names
match the request; `wait_for_custom_event` additionally decodes the
matched event's argument bytes into a typed structure.

Bytes are modelled as `Nat` values (kept below 256 where it matters),
byte strings as `List Nat`.  Fallible steps return `Except String`,
mirroring the `Result<_, String>` signatures of the source.  The
channel is modelled as the finite list of strings received before the
producer end is dropped, so the blocking `recv` loop becomes structural
recursion on that list, with the end of the list standing for the
channel being permanently closed.

The `EventsDecoder`, its type-size registry and `hexstr_to_vec` live in
the `substrate_api_client` library, outside this repository's sources;
those parts are modelled from the spec (each such definition says so in
its doc comment).  The repository's own code — the wait loop, the
match-and-return filter, and the typed decode step — is translated
directly from `src/src/main.rs`.
-/

deriving instance DecidableEq for Except

/-- Outcome of a call that may also panic (Rust `unwrap`): `ok` and `err`
are the two sides of the returned `Result`, `panic` is an `unwrap`
failure that never produces a `Result` at all. -/
inductive WaitOutcome (α : Type) where
  | ok : α → WaitOutcome α
  | err : String → WaitOutcome α
  | panic : WaitOutcome α
deriving DecidableEq, Repr

/-- `events::RawEvent` of the client library: module name, event
(variant) name, and the still-undecoded argument bytes. -/
structure RawEvent where
  module : String
  variant : String
  data : List Nat
deriving DecidableEq, Repr

/-- Modelled from the spec: positional metadata indicating when in block
execution an event was emitted (during a specific extrinsic, at
finalization, or at initialization). Decoded and carried alongside each
event but unused by the matching logic. -/
inductive Phase where
  | ApplyExtrinsic : Nat → Phase
  | Finalization : Phase
  | Initialization : Phase
deriving DecidableEq, Repr

/-- `events::RuntimeEvent` of the client library: the decoder emits
events either in raw (tag plus undecoded bytes) form or in some other,
non-raw form.  The library's non-`Raw` alternatives are modelled by a
single constructor carrying the same tagging data, so that a non-raw
event whose tags would match the request is expressible. -/
inductive RuntimeEvent where
  | Raw : RawEvent → RuntimeEvent
  | NonRaw : RawEvent → RuntimeEvent
deriving DecidableEq, Repr

/-! ### Hex decoding (`utils::hexstr_to_vec`) -/

/-- Value of one hex digit, case-insensitive; `none` on a non-hex
character. -/
def hexDigitVal (c : Char) : Option Nat :=
  if '0' ≤ c ∧ c ≤ '9' then some (c.toNat - 48)
  else if 'a' ≤ c ∧ c ≤ 'f' then some (c.toNat - 87)
  else if 'A' ≤ c ∧ c ≤ 'F' then some (c.toNat - 55)
  else none

/-- Decode a list of hex digits, two digits per byte. -/
def hexPairsToBytes : List Char → Except String (List Nat)
  | [] => .ok []
  | [_] => .error "Odd number of digits"
  | c1 :: c2 :: rest =>
    match hexDigitVal c1, hexDigitVal c2, hexPairsToBytes rest with
    | some hi, some lo, .ok bs => .ok ((16 * hi + lo) :: bs)
    | some _, some _, .error e => .error e
    | _, _, _ => .error "Invalid character"

/-- Modelled from the spec: the library's `hexstr_to_vec` — strip a
leading `0x` if present, then hex-decode; fails on invalid hex. -/
def hexstr_to_vec (s : String) : Except String (List Nat) :=
  let cs := s.data
  hexPairsToBytes (if cs.take 2 = ['0', 'x'] then cs.drop 2 else cs)

/-- Hex-encode one byte (low 8 bits), lowercase, two digits. -/
def byteToHex (b : Nat) : List Char :=
  [Nat.digitChar (b / 16 % 16), Nat.digitChar (b % 16)]

/-- Hex-encode a byte list with a leading `0x`, as the node's
subscription feed delivers blobs. -/
def bytesToHexStr (bs : List Nat) : String :=
  String.mk ('0' :: 'x' :: (bs.map byteToHex).flatten)

/-! ### Type size registry (modelled from the spec) -/

/-- Modelled from the spec: the `TypeSizeRegistry`, a mapping from type
name to caller-registered fixed byte width. -/
abbrev TypeSizeRegistry : Type := List (String × Nat)

/-- Look a type name up in the registry. -/
def TypeSizeRegistry.find : TypeSizeRegistry → String → Option Nat
  | [], _ => none
  | (n, s) :: rest, name => if n = name then some s else TypeSizeRegistry.find rest name

/-- Modelled from the spec: `register(type_name, size)` — succeed and
no-op when the name is already bound to the identical size, fail on a
conflicting re-registration, insert a fresh binding otherwise. -/
def TypeSizeRegistry.register (reg : TypeSizeRegistry) (name : String) (size : Nat) :
    Except String TypeSizeRegistry :=
  match reg.find name with
  | some s => if s = size then .ok reg else .error ("conflicting registration for " ++ name)
  | none => .ok ((name, size) :: reg)

/-- Built-in size rules the generic decoder resolves structurally:
fixed-width scalars and the 32-byte account type. -/
def builtinSize : String → Option Nat
  | "u8" => some 1
  | "u16" => some 2
  | "u32" => some 4
  | "u64" => some 8
  | "u128" => some 16
  | "bool" => some 1
  | "AccountId" => some 32
  | _ => none

/-- Resolve a type name: built-in rules first, the registry as
fallback. -/
def resolveSize (reg : TypeSizeRegistry) (name : String) : Option Nat :=
  match builtinSize name with
  | some s => some s
  | none => reg.find name

/-! ### Binary reading primitives -/

/-- Read one byte from the cursor. -/
def readByte : List Nat → Except String (Nat × List Nat)
  | [] => .error "Truncated"
  | b :: rest => .ok (b, rest)

/-- Read exactly `n` bytes from the cursor. -/
def readBytes (n : Nat) (bs : List Nat) : Except String (List Nat × List Nat) :=
  if n ≤ bs.length then .ok (bs.take n, bs.drop n) else .error "Truncated"

/-- Decode a little-endian `u32`. -/
def decodeU32 (bs : List Nat) : Except String (Nat × List Nat) :=
  match bs with
  | b0 :: b1 :: b2 :: b3 :: rest =>
    .ok (b0 % 256 + 256 * (b1 % 256) + 65536 * (b2 % 256) + 16777216 * (b3 % 256), rest)
  | _ => .error "Truncated"

/-- Little-endian `u32` encoding of the low 32 bits of `n`. -/
def encodeU32 (n : Nat) : List Nat :=
  [n % 256, n / 256 % 256, n / 65536 % 256, n / 16777216 % 256]

/-- Decode a SCALE compact-encoded natural (single-byte, two-byte and
four-byte modes; the big-integer mode is rejected). -/
def compactDecode : List Nat → Except String (Nat × List Nat)
  | [] => .error "Truncated"
  | b :: rest =>
    if b % 4 = 0 then .ok (b % 256 / 4, rest)
    else if b % 4 = 1 then
      match rest with
      | b1 :: rest1 => .ok ((b % 256 + 256 * (b1 % 256)) / 4, rest1)
      | [] => .error "Truncated"
    else if b % 4 = 2 then
      match rest with
      | b1 :: b2 :: b3 :: rest3 =>
        .ok ((b % 256 + 256 * (b1 % 256) + 65536 * (b2 % 256) + 16777216 * (b3 % 256)) / 4,
          rest3)
      | _ => .error "Truncated"
    else .error "unsupported compact mode"

/-- SCALE compact encoding of `n < 2 ^ 30` (shortest of the three
fixed-width modes). -/
def compactEncode (n : Nat) : List Nat :=
  if n < 64 then [4 * n]
  else if n < 16384 then [(4 * n + 1) % 256, (4 * n + 1) / 256]
  else [(4 * n + 2) % 256, (4 * n + 2) / 256 % 256, (4 * n + 2) / 65536 % 256,
    (4 * n + 2) / 16777216 % 256]

/-- Decode a `Phase`: a one-byte tag, with an extrinsic index after
tag 0. -/
def decodePhase : List Nat → Except String (Phase × List Nat)
  | 0 :: rest =>
    match decodeU32 rest with
    | .ok (n, rest1) => .ok (Phase.ApplyExtrinsic n, rest1)
    | .error e => .error e
  | 1 :: rest => .ok (Phase.Finalization, rest)
  | 2 :: rest => .ok (Phase.Initialization, rest)
  | _ :: _ => .error "unknown phase variant"
  | [] => .error "Truncated"

/-- Encoding of a `Phase`. -/
def encodePhase : Phase → List Nat
  | Phase.ApplyExtrinsic n => 0 :: encodeU32 n
  | Phase.Finalization => [1]
  | Phase.Initialization => [2]

/-! ### Metadata index (modelled from the spec) -/

/-- Modelled from the spec: one event declaration of the schema — the
event's name and the ordered list of its argument type names. -/
structure EventMetadata where
  name : String
  arguments : List String
deriving DecidableEq, Repr

/-- Modelled from the spec: one module of the schema — its name and its
declared events, indexed by the event discriminator. -/
structure ModuleMetadata where
  name : String
  events : List EventMetadata
deriving DecidableEq, Repr

/-- Modelled from the spec: the parsed, queryable schema — the modules
with events, indexed by the module discriminator. -/
abbrev MetadataIndex : Type := List ModuleMetadata

/-! ### EventDecoder (modelled from the spec) -/

/-- Decode the raw argument bytes of one event: for each argument type
name in schema order, resolve its byte width (built-in rules first, the
registry as fallback) and advance the cursor by exactly that many bytes,
retaining the raw sub-slice uninterpreted.  Fails with an unknown-type
error on an unresolvable name and a truncation error on insufficient
bytes. -/
def decodeArgBytes (reg : TypeSizeRegistry) : List String → List Nat →
    Except String (List Nat × List Nat)
  | [], bs => .ok ([], bs)
  | ty :: tys, bs =>
    match resolveSize reg ty with
    | none => .error ("UnknownType: " ++ ty)
    | some sz =>
      match readBytes sz bs with
      | .error e => .error e
      | .ok (chunk, rest) =>
        match decodeArgBytes reg tys rest with
        | .ok (acc, rest1) => .ok (chunk ++ acc, rest1)
        | .error e => .error e

/-- Modelled from the spec: decode one event record — a `Phase`, the
(module, event) discriminator pair, the raw argument bytes sized by the
schema and registry, and a trailing attribute byte that is consumed even
though it is ignored downstream.  Unknown discriminators fail with an
unknown-variant error. -/
def decodeRecord (schema : MetadataIndex) (reg : TypeSizeRegistry) (bs : List Nat) :
    Except String ((Phase × RuntimeEvent) × List Nat) :=
  match decodePhase bs with
  | .error e => .error e
  | .ok (phase, rest) =>
    match readByte rest with
    | .error e => .error e
    | .ok (mIdx, rest1) =>
      match readByte rest1 with
      | .error e => .error e
      | .ok (eIdx, rest2) =>
        match schema[mIdx]? with
        | none => .error "UnknownVariant: module"
        | some m =>
          match m.events[eIdx]? with
          | none => .error "UnknownVariant: event"
          | some e =>
            match decodeArgBytes reg e.arguments rest2 with
            | .error err => .error err
            | .ok (data, rest3) =>
              match readByte rest3 with
              | .error err => .error err
              | .ok (_, rest4) =>
                .ok ((phase, RuntimeEvent.Raw ⟨m.name, e.name, data⟩), rest4)

/-- Decode `n` consecutive event records. -/
def decodeRecords (schema : MetadataIndex) (reg : TypeSizeRegistry) :
    Nat → List Nat → Except String (List (Phase × RuntimeEvent))
  | 0, _ => .ok []
  | n + 1, bs =>
    match decodeRecord schema reg bs with
    | .error e => .error e
    | .ok (ev, rest) =>
      match decodeRecords schema reg n rest with
      | .ok evs => .ok (ev :: evs)
      | .error e => .error e

/-- Modelled from the spec: `EventsDecoder.decode_events` — read a
compact-encoded count of event records from the head of the blob, then
decode that many records in sequence. -/
def decode_events (schema : MetadataIndex) (reg : TypeSizeRegistry) (bs : List Nat) :
    Except String (List (Phase × RuntimeEvent)) :=
  match compactDecode bs with
  | .error e => .error e
  | .ok (n, rest) => decodeRecords schema reg n rest

/-! ### The wait loop (`src/src/main.rs`, `wait_for_raw_custom_event`) -/

/-- The error message of `std::sync::mpsc::RecvError`, produced when the
channel is permanently closed. -/
def recvClosedMsg : String := "receiving on an empty and disconnected channel"

/-- Scan a decoded event list for the first `Raw` event whose module and
variant equal the request, case-sensitively; the loop body of the source
(the `for` over `raw_events` with its guarded match). -/
def findMatch (module variant : String) : List (Phase × RuntimeEvent) → Option RawEvent
  | [] => none
  | (_, RuntimeEvent.Raw raw) :: rest =>
    if raw.module = module ∧ raw.variant = variant then some raw
    else findMatch module variant rest
  | (_, RuntimeEvent.NonRaw _) :: rest => findMatch module variant rest

/-- `wait_for_raw_custom_event` from `src/src/main.rs`.  Per iteration:
receive the next blob (`Err` via `?` if the channel is closed, modelled
by the list running out), `hexstr_to_vec` (`Err` via `?` on failure),
construct the events decoder and register the `OracleId` type size (both
`unwrap`ed, so a failure panics; their results are the `tf` and `rg`
parameters, abstracting the library calls), `decode_events` (on failure
log and continue with the next blob; `dec` abstracts the library
decoder), and return the first matching raw event, otherwise continue. -/
def wait_for_raw_custom_event (tf rg : Except String Unit)
    (dec : List Nat → Except String (List (Phase × RuntimeEvent)))
    (module variant : String) : List String → WaitOutcome RawEvent
  | [] => .err recvClosedMsg
  | blob :: rest =>
    match hexstr_to_vec blob with
    | .error e => .err e
    | .ok unhex =>
      match tf with
      | .error _ => .panic
      | .ok _ =>
        match rg with
        | .error _ => .panic
        | .ok _ =>
          match dec unhex with
          | .ok raw_events =>
            match findMatch module variant raw_events with
            | some raw => .ok raw
            | none => wait_for_raw_custom_event tf rg dec module variant rest
          | .error _ => wait_for_raw_custom_event tf rg dec module variant rest

/-- `wait_for_custom_event` from `src/src/main.rs`: run the raw wait,
then decode the matched event's argument bytes into the target
structure with the SCALE `Decode` of `E` (`decodeE`, which returns the
value and the unconsumed tail), mapping a decode failure to `Err` (the
`.map(..).flatten()` of the source). -/
def wait_for_custom_event {E : Type} (decodeE : List Nat → Except String (E × List Nat))
    (tf rg : Except String Unit)
    (dec : List Nat → Except String (List (Phase × RuntimeEvent)))
    (module variant : String) (blobs : List String) : WaitOutcome E :=
  match wait_for_raw_custom_event tf rg dec module variant blobs with
  | .ok raw =>
    match decodeE raw.data with
    | .ok (e, _) => .ok e
    | .error err => .err err
  | .err e => .err e
  | .panic => .panic

/-! ### The typed target structure (`OracleCreatedArgs`) -/

/-- `OracleCreatedArgs` from `src/src/main.rs`: an `OracleId` (`u32`)
and the creating `AccountId` (32 bytes). -/
structure OracleCreatedArgs where
  oracle : Nat
  creater : List Nat
deriving DecidableEq, Repr

/-- The derived SCALE `Decode` of `OracleCreatedArgs`: a little-endian
`u32`, then 32 account bytes; fails on insufficient bytes and leaves any
surplus bytes as the unconsumed tail (SCALE `decode` does not require
full consumption). -/
def decodeOracleCreatedArgs (bs : List Nat) : Except String (OracleCreatedArgs × List Nat) :=
  match decodeU32 bs with
  | .error e => .error e
  | .ok (n, rest) =>
    match readBytes 32 rest with
    | .error e => .error e
    | .ok (acct, rest1) => .ok (⟨n, acct⟩, rest1)

/-- The constants of the source: target module and event names. -/
def ORACLE_MODULE : String := "OracleModule"

/-- The awaited event name. -/
def ORACLE_CREATED_EVENT : String := "OracleCreated"

/-! ### Encoding (for the byte-exact round-trip properties) -/

/-- Well-formedness of a `Phase` value for 32-bit encoding. -/
def phaseWF : Phase → Bool
  | Phase.ApplyExtrinsic n => decide (n < 4294967296)
  | Phase.Finalization => true
  | Phase.Initialization => true

/-- `argsFit reg tys data`: `data` is exactly the concatenation of one
chunk per argument type, each of its resolved byte width. -/
def argsFit (reg : TypeSizeRegistry) : List String → List Nat → Bool
  | [], bs => bs.isEmpty
  | ty :: tys, bs =>
    match resolveSize reg ty with
    | none => false
    | some sz => decide (sz ≤ bs.length) && argsFit reg tys (bs.drop sz)

/-- A source-side event record before encoding: the phase, the two
discriminator bytes, and the argument payload bytes. -/
structure PlainRecord where
  phase : Phase
  moduleIdx : Nat
  eventIdx : Nat
  data : List Nat
deriving DecidableEq, Repr

/-- Wire encoding of one event record: phase, discriminator pair,
argument bytes, trailing attribute byte. -/
def encodeRecord (r : PlainRecord) : List Nat :=
  encodePhase r.phase ++ (r.moduleIdx :: r.eventIdx :: (r.data ++ [0]))

/-- A record is well formed for `schema` and `reg` when its phase and
discriminators are encodable bytes, its discriminators name a declared
event, and its payload bytes (each a byte) fit that event's argument
widths exactly. -/
def recordWF (schema : MetadataIndex) (reg : TypeSizeRegistry) (r : PlainRecord) : Bool :=
  phaseWF r.phase && decide (r.moduleIdx < 256) && decide (r.eventIdx < 256) &&
    r.data.all (fun b => decide (b < 256)) &&
    match schema[r.moduleIdx]? with
    | none => false
    | some m =>
      match m.events[r.eventIdx]? with
      | none => false
      | some e => argsFit reg e.arguments r.data

/-- The decoded event a well-formed record denotes: its discriminators
resolved to names through the schema, tagging its payload bytes. -/
def recordEvent (schema : MetadataIndex) (r : PlainRecord) : Option (Phase × RuntimeEvent) :=
  match schema[r.moduleIdx]? with
  | none => none
  | some m =>
    match m.events[r.eventIdx]? with
    | none => none
    | some e => some (r.phase, RuntimeEvent.Raw ⟨m.name, e.name, r.data⟩)

/-- Whether a record's schema-resolved names equal the requested
(module, variant) pair, case-sensitively. -/
def recMatches (schema : MetadataIndex) (module variant : String) (r : PlainRecord) : Bool :=
  match schema[r.moduleIdx]? with
  | none => false
  | some m =>
    match m.events[r.eventIdx]? with
    | none => false
    | some e => decide (m.name = module) && decide (e.name = variant)

/-- Wire encoding of one block's event-record list: compact-encoded
count, then the records in order. -/
def encode_events (recs : List PlainRecord) : List Nat :=
  compactEncode recs.length ++ (recs.map encodeRecord).flatten

/-! ### Concrete scenario (spec §8: module "Oracle", event "Created") -/

/-- Scenario schema: module `Oracle` declares event `Created` with
argument types `[OracleId, AccountId]`. -/
def oracleSchema : MetadataIndex :=
  [⟨"Oracle", [⟨"Created", ["OracleId", "AccountId"]⟩]⟩]

/-- Scenario registry: `OracleId` registered as 4 bytes (the source
registers `OracleId` with the width of `u32`). -/
def oracleReg : TypeSizeRegistry := [("OracleId", 4)]

/-- A specific 32-byte account value (bytes 1..32). -/
def testAccount : List Nat := (List.range 32).map (fun b => b + 1)

/-- Scenario record: one `Oracle::Created` occurrence with identifier 7
and `testAccount`. -/
def oracleRec : PlainRecord :=
  ⟨Phase.Initialization, 0, 0, [7, 0, 0, 0] ++ testAccount⟩

/-- The scenario blob: the hex encoding of one block containing exactly
`oracleRec`. -/
def oracleBlob : String := bytesToHexStr (encode_events [oracleRec])

/-- A schema whose `Created` event carries one trailing `u8` beyond the
fields of `OracleCreatedArgs`, so the matched payload has one surplus
byte relative to the typed structure. -/
def surplusSchema : MetadataIndex :=
  [⟨"Oracle", [⟨"Created", ["OracleId", "AccountId", "u8"]⟩]⟩]

/-- Scenario record with one surplus payload byte (value 9). -/
def surplusRec : PlainRecord :=
  ⟨Phase.Initialization, 0, 0, ([7, 0, 0, 0] ++ testAccount) ++ [9]⟩

/-- The surplus-byte scenario blob. -/
def surplusBlob : String := bytesToHexStr (encode_events [surplusRec])

/-! ### Round-trip lemmas -/

/-- A hex digit character decodes back to its value. -/
theorem hexDigitVal_digitChar : ∀ n, n < 16 → hexDigitVal (Nat.digitChar n) = some n := by
  decide

/-- Hex-encoding a byte list (all values below 256) and decoding the
digit pairs returns the bytes unchanged. -/
theorem hexPairsToBytes_byteToHex (bs : List Nat) (h : ∀ b ∈ bs, b < 256) :
    hexPairsToBytes ((bs.map byteToHex).flatten) = .ok bs := by
  induction bs with
  | nil => rfl
  | cons b bs ih =>
    have hb : b < 256 := h b (List.mem_cons_self b bs)
    have h1 : hexDigitVal (Nat.digitChar (b / 16 % 16)) = some (b / 16 % 16) :=
      hexDigitVal_digitChar _ (by omega)
    have h2 : hexDigitVal (Nat.digitChar (b % 16)) = some (b % 16) :=
      hexDigitVal_digitChar _ (by omega)
    have ih' := ih (fun x hx => h x (List.mem_cons_of_mem b hx))
    simp only [List.map_cons, List.flatten_cons, byteToHex, List.cons_append, List.nil_append]
    simp only [hexPairsToBytes, h1, h2, ih']
    have hv : 16 * (b / 16 % 16) + b % 16 = b := by omega
    rw [hv]

/-- `hexstr_to_vec` inverts `bytesToHexStr`. -/
theorem hexstr_to_vec_bytesToHexStr (bs : List Nat) (h : ∀ b ∈ bs, b < 256) :
    hexstr_to_vec (bytesToHexStr bs) = .ok bs := by
  have : hexstr_to_vec (bytesToHexStr bs)
      = hexPairsToBytes ((bs.map byteToHex).flatten) := rfl
  rw [this]
  exact hexPairsToBytes_byteToHex bs h

/-- Mode-0 (single-byte) compact decoding. -/
theorem compactDecode_mode0 (b : Nat) (rest : List Nat) (h : b % 4 = 0) :
    compactDecode (b :: rest) = .ok (b % 256 / 4, rest) := by
  simp only [compactDecode]
  rw [if_pos h]

/-- Mode-1 (two-byte) compact decoding. -/
theorem compactDecode_mode1 (b b1 : Nat) (rest : List Nat) (h : b % 4 = 1) :
    compactDecode (b :: b1 :: rest) = .ok ((b % 256 + 256 * (b1 % 256)) / 4, rest) := by
  simp only [compactDecode]
  rw [if_neg (by omega), if_pos h]

/-- Mode-2 (four-byte) compact decoding. -/
theorem compactDecode_mode2 (b b1 b2 b3 : Nat) (rest : List Nat) (h : b % 4 = 2) :
    compactDecode (b :: b1 :: b2 :: b3 :: rest) =
      .ok ((b % 256 + 256 * (b1 % 256) + 65536 * (b2 % 256) + 16777216 * (b3 % 256)) / 4,
        rest) := by
  simp only [compactDecode]
  rw [if_neg (by omega), if_neg (by omega), if_pos h]

/-- Compact round trip for counts below `2 ^ 30`. -/
theorem compactDecode_compactEncode (n : Nat) (tail : List Nat) (h : n < 1073741824) :
    compactDecode (compactEncode n ++ tail) = .ok (n, tail) := by
  unfold compactEncode
  by_cases h1 : n < 64
  · rw [if_pos h1, List.singleton_append, compactDecode_mode0 _ _ (by omega)]
    have hv : 4 * n % 256 / 4 = n := by omega
    rw [hv]
  · rw [if_neg h1]
    by_cases h2 : n < 16384
    · rw [if_pos h2, List.cons_append, List.singleton_append,
        compactDecode_mode1 _ _ _ (by omega)]
      have hv : ((4 * n + 1) % 256 % 256 + 256 * ((4 * n + 1) / 256 % 256)) / 4 = n := by
        omega
      rw [hv]
    · rw [if_neg h2, List.cons_append, List.cons_append, List.cons_append,
        List.singleton_append, compactDecode_mode2 _ _ _ _ _ (by omega)]
      have hv : ((4 * n + 2) % 256 % 256 + 256 * ((4 * n + 2) / 256 % 256 % 256)
          + 65536 * ((4 * n + 2) / 65536 % 256 % 256)
          + 16777216 * ((4 * n + 2) / 16777216 % 256 % 256)) / 4 = n := by omega
      rw [hv]

/-- Little-endian `u32` round trip. -/
theorem decodeU32_encodeU32 (n : Nat) (tail : List Nat) (h : n < 4294967296) :
    decodeU32 (encodeU32 n ++ tail) = .ok (n, tail) := by
  simp only [encodeU32, List.cons_append, List.nil_append, decodeU32]
  have hv : n % 256 % 256 + 256 * (n / 256 % 256 % 256) + 65536 * (n / 65536 % 256 % 256)
      + 16777216 * (n / 16777216 % 256 % 256) = n := by omega
  rw [hv]

/-- `Phase` round trip. -/
theorem decodePhase_encodePhase (p : Phase) (tail : List Nat) (h : phaseWF p = true) :
    decodePhase (encodePhase p ++ tail) = .ok (p, tail) := by
  cases p with
  | ApplyExtrinsic n =>
    have hn : n < 4294967296 := by simpa [phaseWF] using h
    simp only [encodePhase, List.cons_append, decodePhase,
      decodeU32_encodeU32 n tail hn]
  | Finalization => rfl
  | Initialization => rfl

/-- If `data` fits the argument widths exactly, decoding the argument
bytes consumes precisely `data` and returns it unchanged. -/
theorem decodeArgBytes_exact (reg : TypeSizeRegistry) (tys : List String) :
    ∀ data rest : List Nat, argsFit reg tys data = true →
      decodeArgBytes reg tys (data ++ rest) = .ok (data, rest) := by
  induction tys with
  | nil =>
    intro data rest h
    have hd : data = [] := by simpa [argsFit, List.isEmpty_iff] using h
    subst hd
    rfl
  | cons ty tys ih =>
    intro data rest h
    unfold argsFit at h
    cases hres : resolveSize reg ty with
    | none => rw [hres] at h; simp at h
    | some sz =>
      rw [hres] at h
      simp only [Bool.and_eq_true, decide_eq_true_eq] at h
      obtain ⟨hle, hfit⟩ := h
      have hlen : sz ≤ (data ++ rest).length := by
        simp only [List.length_append]; omega
      have htake : (data ++ rest).take sz = data.take sz :=
        List.take_append_of_le_length hle
      have hdrop : (data ++ rest).drop sz = data.drop sz ++ rest :=
        List.drop_append_of_le_length hle
      simp only [decodeArgBytes, hres, readBytes, if_pos hlen, htake, hdrop,
        ih (data.drop sz) rest hfit, List.take_append_drop]

/-- One well-formed record decodes to its denoted event, consuming
exactly its encoding. -/
theorem decodeRecord_encodeRecord (schema : MetadataIndex) (reg : TypeSizeRegistry)
    (r : PlainRecord) (rest : List Nat) (h : recordWF schema reg r = true) :
    ∃ ev, recordEvent schema r = some ev ∧
      decodeRecord schema reg (encodeRecord r ++ rest) = .ok (ev, rest) := by
  unfold recordWF at h
  cases hm : schema[r.moduleIdx]? with
  | none => simp [hm] at h
  | some m =>
    simp only [hm] at h
    cases he : m.events[r.eventIdx]? with
    | none => simp [he] at h
    | some e =>
      simp only [he] at h
      simp only [Bool.and_eq_true, decide_eq_true_eq] at h
      obtain ⟨⟨⟨⟨hph, _⟩, _⟩, _⟩, hfit⟩ := h
      refine ⟨(r.phase, RuntimeEvent.Raw ⟨m.name, e.name, r.data⟩), ?_, ?_⟩
      · simp only [recordEvent, hm, he]
      · unfold encodeRecord
        simp only [List.append_assoc, List.cons_append, List.singleton_append,
          List.nil_append]
        simp only [decodeRecord, decodePhase_encodePhase r.phase _ hph, readByte, hm, he,
          decodeArgBytes_exact reg e.arguments r.data (0 :: rest) hfit]

/-- A list of well-formed records decodes to its denoted events. -/
theorem decodeRecords_encode (schema : MetadataIndex) (reg : TypeSizeRegistry)
    (recs : List PlainRecord) (tail : List Nat)
    (h : ∀ r ∈ recs, recordWF schema reg r = true) :
    decodeRecords schema reg recs.length ((recs.map encodeRecord).flatten ++ tail) =
      .ok (recs.filterMap (recordEvent schema)) := by
  induction recs with
  | nil => rfl
  | cons r recs ih =>
    have hr := h r (List.mem_cons_self r recs)
    obtain ⟨ev, hev, hdec⟩ := decodeRecord_encodeRecord schema reg r
      ((recs.map encodeRecord).flatten ++ tail) hr
    simp only [List.map_cons, List.flatten_cons, List.length_cons, List.append_assoc]
    simp only [decodeRecords, hdec, ih (fun q hq => h q (List.mem_cons_of_mem r hq))]
    simp only [List.filterMap_cons, hev]

/-- Full blob round trip: decoding the encoding of a well-formed record
list yields exactly the denoted events. -/
theorem decode_events_encode_events (schema : MetadataIndex) (reg : TypeSizeRegistry)
    (recs : List PlainRecord) (hlen : recs.length < 1073741824)
    (h : ∀ r ∈ recs, recordWF schema reg r = true) :
    decode_events schema reg (encode_events recs) =
      .ok (recs.filterMap (recordEvent schema)) := by
  unfold decode_events encode_events
  rw [compactDecode_compactEncode recs.length _ hlen]
  have hrec := decodeRecords_encode schema reg recs [] h
  rw [List.append_nil] at hrec
  simp only [hrec]

/-- Every byte of a compact encoding is below 256. -/
theorem compactEncode_lt (n : Nat) : ∀ b ∈ compactEncode n, b < 256 := by
  intro b hb
  unfold compactEncode at hb
  split at hb
  · simp at hb; omega
  · split at hb
    · simp at hb
      rcases hb with h1 | h1 <;> omega
    · simp at hb
      rcases hb with h1 | h1 | h1 | h1 <;> omega

/-- Every byte of a `u32` encoding is below 256. -/
theorem encodeU32_lt (n : Nat) : ∀ b ∈ encodeU32 n, b < 256 := by
  intro b hb
  simp [encodeU32] at hb
  rcases hb with h1 | h1 | h1 | h1 <;> omega

/-- Every byte of a phase encoding is below 256. -/
theorem encodePhase_lt (p : Phase) : ∀ b ∈ encodePhase p, b < 256 := by
  intro b hb
  cases p with
  | ApplyExtrinsic n =>
    simp only [encodePhase, List.mem_cons] at hb
    rcases hb with h1 | h1
    · omega
    · exact encodeU32_lt n b h1
  | Finalization => simp [encodePhase] at hb; omega
  | Initialization => simp [encodePhase] at hb; omega

/-- Every byte of a well-formed record's encoding is below 256. -/
theorem encodeRecord_lt (schema : MetadataIndex) (reg : TypeSizeRegistry) (r : PlainRecord)
    (h : recordWF schema reg r = true) : ∀ b ∈ encodeRecord r, b < 256 := by
  intro b hb
  unfold recordWF at h
  simp only [Bool.and_eq_true, decide_eq_true_eq, List.all_eq_true] at h
  obtain ⟨⟨⟨⟨_, hmi⟩, hei⟩, hdata⟩, _⟩ := h
  unfold encodeRecord at hb
  simp only [List.mem_append, List.mem_cons] at hb
  rcases hb with h1 | h1 | h1 | h1
  · exact encodePhase_lt r.phase b h1
  · omega
  · omega
  · rcases h1 with h2 | h2 | h2
    · exact hdata b h2
    · omega
    · simp at h2

/-- Every byte of an encoded well-formed blob is below 256. -/
theorem encode_events_lt (schema : MetadataIndex) (reg : TypeSizeRegistry)
    (recs : List PlainRecord) (h : ∀ r ∈ recs, recordWF schema reg r = true) :
    ∀ b ∈ encode_events recs, b < 256 := by
  intro b hb
  unfold encode_events at hb
  rcases List.mem_append.mp hb with h1 | h1
  · exact compactEncode_lt _ b h1
  · rw [List.mem_flatten] at h1
    obtain ⟨l, hl, hbl⟩ := h1
    rw [List.mem_map] at hl
    obtain ⟨r, hr, rfl⟩ := hl
    exact encodeRecord_lt schema reg r (h r hr) b hbl

/-- A successful scan yields a `Raw` event from the list whose names
equal the request. -/
theorem findMatch_eq_some (module variant : String) (evs : List (Phase × RuntimeEvent))
    (raw : RawEvent) (h : findMatch module variant evs = some raw) :
    raw.module = module ∧ raw.variant = variant ∧ ∃ p, (p, RuntimeEvent.Raw raw) ∈ evs := by
  induction evs with
  | nil => simp [findMatch] at h
  | cons ev evs ih =>
    obtain ⟨p, e⟩ := ev
    cases e with
    | Raw r =>
      simp only [findMatch] at h
      split at h
      · rename_i hcond
        obtain rfl : r = raw := by injection h
        exact ⟨hcond.1, hcond.2, p, by simp⟩
      · obtain ⟨h1, h2, q, hq⟩ := ih h
        exact ⟨h1, h2, q, List.mem_cons_of_mem _ hq⟩
    | NonRaw r =>
      simp only [findMatch] at h
      obtain ⟨h1, h2, q, hq⟩ := ih h
      exact ⟨h1, h2, q, List.mem_cons_of_mem _ hq⟩

/-- Scanning the events denoted by `pre ++ r :: post`, where nothing in
`pre` matches and `r` does, returns `r`'s event with the requested names
and `r`'s payload bytes. -/
theorem findMatch_filterMap (schema : MetadataIndex) (module variant : String)
    (pre post : List PlainRecord) (r : PlainRecord)
    (hpre : ∀ q ∈ pre, recMatches schema module variant q = false)
    (hr : recMatches schema module variant r = true) :
    findMatch module variant ((pre ++ r :: post).filterMap (recordEvent schema)) =
      some ⟨module, variant, r.data⟩ := by
  induction pre with
  | nil =>
    simp only [List.nil_append, List.filterMap_cons]
    unfold recMatches at hr
    cases hm : schema[r.moduleIdx]? with
    | none => simp [hm] at hr
    | some m =>
      simp only [hm] at hr
      cases he : m.events[r.eventIdx]? with
      | none => simp [he] at hr
      | some e =>
        simp only [he, Bool.and_eq_true, decide_eq_true_eq] at hr
        obtain ⟨hname, hvar⟩ := hr
        simp only [recordEvent, hm, he]
        simp only [findMatch]
        rw [if_pos ⟨hname, hvar⟩]
        subst hname
        subst hvar
        rfl
  | cons q pre ih =>
    have hq := hpre q (List.mem_cons_self q pre)
    have hpre' := fun x hx => hpre x (List.mem_cons_of_mem q hx)
    simp only [List.cons_append, List.filterMap_cons]
    cases hm : schema[q.moduleIdx]? with
    | none =>
      simp only [recordEvent, hm]
      exact ih hpre'
    | some m =>
      cases he : m.events[q.eventIdx]? with
      | none =>
        simp only [recordEvent, hm, he]
        exact ih hpre'
      | some e =>
        simp only [recordEvent, hm, he]
        have hcond : ¬(m.name = module ∧ e.name = variant) := by
          intro hc
          have htrue : recMatches schema module variant q = true := by
            have h1 : decide (m.name = module) = true := decide_eq_true hc.1
            have h2 : decide (e.name = variant) = true := decide_eq_true hc.2
            simp only [recMatches, hm, he, h1, h2, Bool.and_self]
          exact absurd (htrue.symm.trans hq) (by decide)
        simp only [findMatch]
        rw [if_neg hcond]
        exact ih hpre'

/-! ### Claims -/

/-- C1: For every well-formed blob containing exactly one event whose
module and variant names equal the requested (module, event) pair under
case-sensitive exact comparison, `wait_for_raw_custom_event` returns
that occurrence's `RawEvent` with its argument bytes unchanged
(byte-exact), and when a blob contains several matches the first one in
decoded order is returned.  (`pre`/`post` split the blob's records at
the first match: nothing in `pre` matches, so the claim covers both the
exactly-one case and the several-matches case.) -/
theorem wait_for_raw_returns_first_match_byte_exact
    (schema : MetadataIndex) (reg : TypeSizeRegistry) (module variant : String)
    (pre post : List PlainRecord) (r : PlainRecord) (rest : List String)
    (hlen : (pre ++ r :: post).length < 1073741824)
    (hwf : ∀ q ∈ pre ++ r :: post, recordWF schema reg q = true)
    (hpre : ∀ q ∈ pre, recMatches schema module variant q = false)
    (hr : recMatches schema module variant r = true) :
    wait_for_raw_custom_event (.ok ()) (.ok ()) (decode_events schema reg) module variant
      (bytesToHexStr (encode_events (pre ++ r :: post)) :: rest) =
      .ok ⟨module, variant, r.data⟩ := by
  have hhex := hexstr_to_vec_bytesToHexStr (encode_events (pre ++ r :: post))
    (encode_events_lt schema reg _ hwf)
  have hdec := decode_events_encode_events schema reg (pre ++ r :: post) hlen hwf
  have hfind := findMatch_filterMap schema module variant pre post r hpre hr
  simp only [wait_for_raw_custom_event, hhex, hdec, hfind]

/-- Witness for C1: the oracle scenario blob with one matching record. -/
theorem wait_for_raw_returns_first_match_byte_exact_witness :
    wait_for_raw_custom_event (.ok ()) (.ok ()) (decode_events oracleSchema oracleReg)
      "Oracle" "Created" [oracleBlob] =
      .ok ⟨"Oracle", "Created", oracleRec.data⟩ :=
  wait_for_raw_returns_first_match_byte_exact oracleSchema oracleReg "Oracle" "Created"
    [] [] oracleRec [] (by decide) (by decide) (by decide) (by decide)

/-- C2 counterexample: a malformed-hex blob makes the wait return an
error, so it does prevent matching the correctly decodable event in the
next blob of the same feed. -/
theorem malformed_hex_is_fatal_cex :
    wait_for_raw_custom_event (.ok ()) (.ok ()) (decode_events oracleSchema oracleReg)
      "Oracle" "Created" ["0xzz", oracleBlob] = .err "Invalid character" ∧
    wait_for_raw_custom_event (.ok ()) (.ok ()) (decode_events oracleSchema oracleReg)
      "Oracle" "Created" [oracleBlob] = .ok ⟨"Oracle", "Created", oracleRec.data⟩ := by
  constructor
  · rfl
  · decide

/-- C2 amended: a hex-decode failure on an inbound blob is fatal:
`wait_for_raw_custom_event` returns that error at once (the `?` on
`hexstr_to_vec`), never reaching later blobs. -/
theorem malformed_hex_returns_err (tf rg : Except String Unit)
    (dec : List Nat → Except String (List (Phase × RuntimeEvent)))
    (module variant : String) (blob : String) (rest : List String) (e : String)
    (h : hexstr_to_vec blob = .error e) :
    wait_for_raw_custom_event tf rg dec module variant (blob :: rest) = .err e := by
  simp only [wait_for_raw_custom_event, h]

/-- Witness for the amended C2. -/
theorem malformed_hex_returns_err_witness :
    wait_for_raw_custom_event (.ok ()) (.ok ()) (decode_events oracleSchema oracleReg)
      "Oracle" "Created" ["0xzz", oracleBlob] = .err "Invalid character" :=
  malformed_hex_returns_err (.ok ()) (.ok ()) (decode_events oracleSchema oracleReg)
    "Oracle" "Created" "0xzz" [oracleBlob] "Invalid character" (by decide)

/-- Decoding `OracleCreatedArgs` from fewer than 36 bytes fails. -/
theorem decodeOracleCreatedArgs_short (bs : List Nat) (h : bs.length < 36) :
    decodeOracleCreatedArgs bs = .error "Truncated" := by
  rcases bs with _ | ⟨b0, _ | ⟨b1, _ | ⟨b2, _ | ⟨b3, rest⟩⟩⟩⟩
  · rfl
  · rfl
  · rfl
  · rfl
  · unfold decodeOracleCreatedArgs
    simp only [decodeU32]
    have hlen : ¬(32 ≤ rest.length) := by
      simp only [List.length_cons] at h
      omega
    rw [readBytes, if_neg hlen]

/-- Decoding `OracleCreatedArgs` from at least 36 bytes succeeds and
leaves exactly the bytes beyond the 36th as the unconsumed tail. -/
theorem decodeOracleCreatedArgs_long (bs : List Nat) (h : 36 ≤ bs.length) :
    ∃ args : OracleCreatedArgs, decodeOracleCreatedArgs bs = .ok (args, bs.drop 36) := by
  rcases bs with _ | ⟨b0, _ | ⟨b1, _ | ⟨b2, _ | ⟨b3, rest⟩⟩⟩⟩
  · simp at h
  · simp at h
  · simp at h
  · simp at h
  · simp only [List.length_cons] at h
    have h32 : 32 ≤ rest.length := by omega
    refine ⟨⟨b0 % 256 + 256 * (b1 % 256) + 65536 * (b2 % 256) + 16777216 * (b3 % 256),
      rest.take 32⟩, ?_⟩
    unfold decodeOracleCreatedArgs
    simp only [decodeU32]
    rw [readBytes, if_pos h32]
    have hdrop : List.drop 36 (b0 :: b1 :: b2 :: b3 :: rest) = List.drop 32 rest := rfl
    rw [hdrop]

/-- C3 counterexample: a matched event whose payload has one surplus
byte relative to `OracleCreatedArgs` (37 bytes against 36) is decoded
successfully — the typed wait returns the structure, not a
payload-mismatch error. -/
theorem surplus_bytes_not_rejected_cex :
    wait_for_raw_custom_event (.ok ()) (.ok ()) (decode_events surplusSchema oracleReg)
      "Oracle" "Created" [surplusBlob] = .ok ⟨"Oracle", "Created", surplusRec.data⟩ ∧
    surplusRec.data.length = 37 ∧
    wait_for_custom_event decodeOracleCreatedArgs (.ok ()) (.ok ())
      (decode_events surplusSchema oracleReg) "Oracle" "Created" [surplusBlob] =
      .ok ⟨7, testAccount⟩ := by
  refine ⟨?_, ?_, ?_⟩
  · decide
  · decide
  · decide

/-- C3 amended: when the matched event's payload has insufficient bytes
for `OracleCreatedArgs`, the typed wait fails with the decoder's
truncation error and never returns a zero-filled or truncated
structure; when the payload has surplus bytes, the decode *succeeds*,
returning the structure decoded from the 36-byte prefix and silently
ignoring the surplus (the source uses SCALE `decode`, which does not
require full consumption). -/
theorem typed_wait_insufficient_fails_surplus_ignored
    (tf rg : Except String Unit)
    (dec : List Nat → Except String (List (Phase × RuntimeEvent)))
    (module variant : String) (blobs : List String) (raw : RawEvent)
    (hraw : wait_for_raw_custom_event tf rg dec module variant blobs = .ok raw) :
    (raw.data.length < 36 →
      wait_for_custom_event decodeOracleCreatedArgs tf rg dec module variant blobs =
        .err "Truncated") ∧
    (36 ≤ raw.data.length → ∃ args : OracleCreatedArgs,
      decodeOracleCreatedArgs raw.data = .ok (args, raw.data.drop 36) ∧
      wait_for_custom_event decodeOracleCreatedArgs tf rg dec module variant blobs =
        .ok args) := by
  constructor
  · intro hlt
    simp only [wait_for_custom_event, hraw, decodeOracleCreatedArgs_short raw.data hlt]
  · intro hge
    obtain ⟨args, hargs⟩ := decodeOracleCreatedArgs_long raw.data hge
    refine ⟨args, hargs, ?_⟩
    simp only [wait_for_custom_event, hraw, hargs]

/-- Witness for the amended C3, on the surplus-byte scenario. -/
theorem typed_wait_insufficient_fails_surplus_ignored_witness :
    ∃ args : OracleCreatedArgs,
      decodeOracleCreatedArgs surplusRec.data = .ok (args, surplusRec.data.drop 36) ∧
      wait_for_custom_event decodeOracleCreatedArgs (.ok ()) (.ok ())
        (decode_events surplusSchema oracleReg) "Oracle" "Created" [surplusBlob] =
        .ok args :=
  (typed_wait_insufficient_fails_surplus_ignored (.ok ()) (.ok ())
    (decode_events surplusSchema oracleReg) "Oracle" "Created" [surplusBlob]
    ⟨"Oracle", "Created", surplusRec.data⟩ (by decide)).2 (by decide)

/-- C4: when the channel is permanently closed before any matching
event arrived (every received blob hex-decodes but either fails event
decoding or contains no match), the wait terminates with the
channel-closed error — no infinite block, no false match.  (Termination
is structural: the model's wait is a total function of the received
list.) -/
theorem closed_channel_returns_closed_err
    (dec : List Nat → Except String (List (Phase × RuntimeEvent)))
    (module variant : String) (blobs : List String)
    (h : ∀ blob ∈ blobs, ∃ bs, hexstr_to_vec blob = .ok bs ∧
      ((∃ e, dec bs = .error e) ∨
        ∃ evs, dec bs = .ok evs ∧ findMatch module variant evs = none)) :
    wait_for_raw_custom_event (.ok ()) (.ok ()) dec module variant blobs =
      .err recvClosedMsg := by
  induction blobs with
  | nil => rfl
  | cons blob rest ih =>
    obtain ⟨bs, hhex, hcase⟩ := h blob (List.mem_cons_self blob rest)
    have ih' := ih (fun b hb => h b (List.mem_cons_of_mem blob hb))
    rcases hcase with ⟨e, he⟩ | ⟨evs, hevs, hnone⟩
    · simp only [wait_for_raw_custom_event, hhex, he, ih']
    · simp only [wait_for_raw_custom_event, hhex, hevs, hnone, ih']

/-- Witness for C4: the producer closed without delivering any blob. -/
theorem closed_channel_returns_closed_err_witness :
    wait_for_raw_custom_event (.ok ()) (.ok ()) (decode_events oracleSchema oracleReg)
      "Oracle" "Created" [] = .err recvClosedMsg :=
  closed_channel_returns_closed_err (decode_events oracleSchema oracleReg)
    "Oracle" "Created" [] (by simp)

/-- C5: a blob on which event-record decoding fails is logged and
skipped — the wait over it equals the wait over the remaining blobs, so
the failure neither terminates the wait nor produces an error. -/
theorem decode_failure_skips_blob
    (dec : List Nat → Except String (List (Phase × RuntimeEvent)))
    (module variant : String) (blob : String) (rest : List String)
    (bs : List Nat) (e : String)
    (hhex : hexstr_to_vec blob = .ok bs) (hdec : dec bs = .error e) :
    wait_for_raw_custom_event (.ok ()) (.ok ()) dec module variant (blob :: rest) =
      wait_for_raw_custom_event (.ok ()) (.ok ()) dec module variant rest := by
  simp only [wait_for_raw_custom_event, hhex, hdec]

/-- Witness for C5: a blob whose record list is truncated (count 1 but
no record bytes) is skipped and the matching later blob is returned. -/
theorem decode_failure_skips_blob_witness :
    wait_for_raw_custom_event (.ok ()) (.ok ()) (decode_events oracleSchema oracleReg)
      "Oracle" "Created" ["0x04", oracleBlob] =
      wait_for_raw_custom_event (.ok ()) (.ok ()) (decode_events oracleSchema oracleReg)
        "Oracle" "Created" [oracleBlob] :=
  decode_failure_skips_blob (decode_events oracleSchema oracleReg) "Oracle" "Created"
    "0x04" [oracleBlob] [4] "Truncated" (by rfl) (by rfl)

/-- C6: a blob that decodes successfully but contains no occurrence of
the target pair advances the loop to the next blob, without returning
and without an error. -/
theorem no_match_skips_blob
    (dec : List Nat → Except String (List (Phase × RuntimeEvent)))
    (module variant : String) (blob : String) (rest : List String)
    (bs : List Nat) (evs : List (Phase × RuntimeEvent))
    (hhex : hexstr_to_vec blob = .ok bs) (hdec : dec bs = .ok evs)
    (hnone : findMatch module variant evs = none) :
    wait_for_raw_custom_event (.ok ()) (.ok ()) dec module variant (blob :: rest) =
      wait_for_raw_custom_event (.ok ()) (.ok ()) dec module variant rest := by
  simp only [wait_for_raw_custom_event, hhex, hdec, hnone]

/-- Witness for C6: the oracle blob holds no `Balances::Transfer`, so a
wait for that pair moves on to the rest of the feed. -/
theorem no_match_skips_blob_witness :
    wait_for_raw_custom_event (.ok ()) (.ok ()) (decode_events oracleSchema oracleReg)
      "Balances" "Transfer" [oracleBlob] =
      wait_for_raw_custom_event (.ok ()) (.ok ()) (decode_events oracleSchema oracleReg)
        "Balances" "Transfer" [] :=
  no_match_skips_blob (decode_events oracleSchema oracleReg) "Balances" "Transfer"
    oracleBlob [] (encode_events [oracleRec])
    [(Phase.Initialization, RuntimeEvent.Raw ⟨"Oracle", "Created", oracleRec.data⟩)]
    (by decide) (by decide) (by decide)

/-- C7: with the schema declaring `Oracle::Created` with argument types
[`OracleId`, `AccountId`], the identifier registered as 4 bytes, and a
blob encoding one such event with identifier 7 and a specific 32-byte
account, the typed wait returns a structure with `oracle = 7` and
`creater` equal to that account value byte for byte. -/
theorem typed_wait_oracle_created_scenario :
    TypeSizeRegistry.register [] "OracleId" 4 = .ok oracleReg ∧
    wait_for_custom_event decodeOracleCreatedArgs (.ok ()) (.ok ())
      (decode_events oracleSchema oracleReg) "Oracle" "Created" [oracleBlob] =
      .ok ⟨7, testAccount⟩ := by
  constructor
  · rfl
  · decide

/-- C8: registering a type name again with the identical size succeeds
and is a no-op; registering it again with a conflicting size fails with
a registration error. -/
theorem register_idempotent_conflict_on_mismatch
    (reg reg' : TypeSizeRegistry) (name : String) (s1 s2 : Nat)
    (h : reg.register name s1 = .ok reg') :
    reg'.register name s1 = .ok reg' ∧
      (s1 ≠ s2 → reg'.register name s2 =
        .error ("conflicting registration for " ++ name)) := by
  have hfind : reg'.find name = some s1 := by
    unfold TypeSizeRegistry.register at h
    cases hf : reg.find name with
    | some s =>
      simp only [hf] at h
      by_cases hs : s = s1
      · rw [if_pos hs] at h
        injection h with h'
        subst h'
        rw [hf, hs]
      · rw [if_neg hs] at h
        cases h
    | none =>
      simp only [hf] at h
      injection h with h'
      subst h'
      unfold TypeSizeRegistry.find
      rw [if_pos rfl]
  constructor
  · simp [TypeSizeRegistry.register, hfind]
  · intro hne
    simp [TypeSizeRegistry.register, hfind, hne]

/-- Witness for C8: re-registering `OracleId` at 4 bytes is a no-op,
re-registering it at 8 bytes fails. -/
theorem register_idempotent_conflict_witness :
    TypeSizeRegistry.register [("OracleId", 4)] "OracleId" 4 = .ok [("OracleId", 4)] ∧
      TypeSizeRegistry.register [("OracleId", 4)] "OracleId" 8 =
        .error ("conflicting registration for " ++ "OracleId") :=
  have h := register_idempotent_conflict_on_mismatch [] [("OracleId", 4)] "OracleId" 4 8
    (by rfl)
  ⟨h.1, h.2 (by decide)⟩

/-- C9: if constructing the events decoder from the cloned metadata
fails, or registering the `OracleId` type size fails, the call panics
(the source's `unwrap`s) once a blob has been received and hex-decoded,
rather than returning `Err`; and every `Err` the call ever produces
stems from the channel receive (the closed-channel message) or from the
hex-decode of some received blob. -/
theorem unwrap_failure_panics_and_err_only_recv_or_hex
    (tf rg : Except String Unit)
    (dec : List Nat → Except String (List (Phase × RuntimeEvent)))
    (module variant : String) (blob : String) (rest blobs : List String) (bs : List Nat)
    (hhex : hexstr_to_vec blob = .ok bs)
    (hfail : (∃ e, tf = .error e) ∨ (∃ e, rg = .error e)) :
    wait_for_raw_custom_event tf rg dec module variant (blob :: rest) = .panic ∧
    (∀ msg, wait_for_raw_custom_event tf rg dec module variant blobs = .err msg →
      msg = recvClosedMsg ∨ ∃ b ∈ blobs, hexstr_to_vec b = .error msg) := by
  constructor
  · rcases hfail with ⟨e, he⟩ | ⟨e, he⟩
    · subst he
      simp only [wait_for_raw_custom_event, hhex]
    · cases tf with
      | error e' => simp only [wait_for_raw_custom_event, hhex]
      | ok u =>
        subst he
        simp only [wait_for_raw_custom_event, hhex]
  · intro msg
    induction blobs with
    | nil =>
      intro h
      left
      simp only [wait_for_raw_custom_event] at h
      injection h with h'
      exact h'.symm
    | cons b rest' ih =>
      intro h
      simp only [wait_for_raw_custom_event] at h
      cases hh : hexstr_to_vec b with
      | error e =>
        simp only [hh] at h
        injection h with h'
        right
        exact ⟨b, List.mem_cons_self b rest', by rw [hh, h']⟩
      | ok bsv =>
        simp only [hh] at h
        cases tf with
        | error e => cases h
        | ok u =>
          cases rg with
          | error e => cases h
          | ok u' =>
            cases hd : dec bsv with
            | error e =>
              simp only [hd] at h
              rcases ih h with h1 | ⟨b', hmem, hb'⟩
              · exact Or.inl h1
              · exact Or.inr ⟨b', List.mem_cons_of_mem b hmem, hb'⟩
            | ok evs =>
              simp only [hd] at h
              cases hf : findMatch module variant evs with
              | some raw =>
                simp only [hf] at h
                cases h
              | none =>
                simp only [hf] at h
                rcases ih h with h1 | ⟨b', hmem, hb'⟩
                · exact Or.inl h1
                · exact Or.inr ⟨b', List.mem_cons_of_mem b hmem, hb'⟩

/-- Witness for C9: a failed decoder construction panics on the first
received blob. -/
theorem unwrap_failure_panics_witness :
    wait_for_raw_custom_event (.error "metadata error") (.ok ())
      (decode_events oracleSchema oracleReg) "Oracle" "Created" [oracleBlob] = .panic :=
  (unwrap_failure_panics_and_err_only_recv_or_hex (.error "metadata error") (.ok ())
    (decode_events oracleSchema oracleReg) "Oracle" "Created" oracleBlob [] []
    (encode_events [oracleRec]) (by decide) (Or.inl ⟨"metadata error", rfl⟩)).1

/-- C10: whenever the wait returns `Ok raw`, the returned event's
module and variant equal the requested strings, and the result stems
from a `Raw` event of some successfully decoded received blob — an
event in any non-`Raw` form is never returned. -/
theorem wait_ok_matches_request
    (tf rg : Except String Unit)
    (dec : List Nat → Except String (List (Phase × RuntimeEvent)))
    (module variant : String) (blobs : List String) (raw : RawEvent)
    (h : wait_for_raw_custom_event tf rg dec module variant blobs = .ok raw) :
    raw.module = module ∧ raw.variant = variant ∧
      ∃ blob ∈ blobs, ∃ bs evs p, hexstr_to_vec blob = .ok bs ∧ dec bs = .ok evs ∧
        (p, RuntimeEvent.Raw raw) ∈ evs := by
  induction blobs with
  | nil =>
    simp only [wait_for_raw_custom_event] at h
    cases h
  | cons b rest ih =>
    simp only [wait_for_raw_custom_event] at h
    cases hh : hexstr_to_vec b with
    | error e =>
      simp only [hh] at h
      cases h
    | ok bsv =>
      simp only [hh] at h
      cases tf with
      | error e => cases h
      | ok u =>
        cases rg with
        | error e => cases h
        | ok u' =>
          cases hd : dec bsv with
          | error e =>
            simp only [hd] at h
            obtain ⟨h1, h2, blob, hmem, hrest⟩ := ih h
            exact ⟨h1, h2, blob, List.mem_cons_of_mem b hmem, hrest⟩
          | ok evs =>
            simp only [hd] at h
            cases hf : findMatch module variant evs with
            | some raw' =>
              simp only [hf] at h
              injection h with h'
              subst h'
              obtain ⟨h1, h2, p, hp⟩ := findMatch_eq_some module variant evs raw' hf
              exact ⟨h1, h2, b, List.mem_cons_self b rest, bsv, evs, p, hh, hd, hp⟩
            | none =>
              simp only [hf] at h
              obtain ⟨h1, h2, blob, hmem, hrest⟩ := ih h
              exact ⟨h1, h2, blob, List.mem_cons_of_mem b hmem, hrest⟩

/-- Witness for C10 at the oracle scenario. -/
theorem wait_ok_matches_request_witness :
    (RawEvent.mk "Oracle" "Created" oracleRec.data).module = "Oracle" ∧
    (RawEvent.mk "Oracle" "Created" oracleRec.data).variant = "Created" ∧
      ∃ blob ∈ [oracleBlob], ∃ bs evs p, hexstr_to_vec blob = .ok bs ∧
        decode_events oracleSchema oracleReg bs = .ok evs ∧
        (p, RuntimeEvent.Raw (RawEvent.mk "Oracle" "Created" oracleRec.data)) ∈ evs :=
  wait_ok_matches_request (.ok ()) (.ok ()) (decode_events oracleSchema oracleReg)
    "Oracle" "Created" [oracleBlob] (RawEvent.mk "Oracle" "Created" oracleRec.data)
    (by decide)
